import Mathlib

/-!
Verification of the chainsaw experiment-scaffolding library.

This file gives a shallow embedding, in Lean 4, of the parts of the
repository that the specification's claims are about, and proves (or
refutes) each claim against that embedding.

Conventions used throughout:
* Python floats are modelled as rationals (`ℚ`); machine floating point is
  not the subject of any claim here.
* Python dictionaries are modelled as association lists, which preserves
  the insertion order that Python dictionaries guarantee.
* External collaborators (the psychopy window, clocks, random draws, the
  response-box device queue) are modelled as explicit inputs: clock
  readings are input functions, random choices are input streams, device
  queues are input lists.
* Fallible code is modelled with explicit result constructors; a raise
  site in the Python source corresponds to a dedicated error constructor.
-/

namespace Chainsaw

/-! ## Frame-time conversion (`exp_utils.seconds_to_frames`, lines 782-793)

The Python converter is `to_frames = lambda x: int(round(x / frame_time))`.
Python's built-in `round` rounds half to even (banker's rounding), and
`int` of the resulting integral value is the identity, so the conversion
is round-half-to-even of `x / frame_time`.
-/

/-- Round-half-to-even on rationals: the behaviour of Python's built-in
`round` (ties go to the even integer). -/
def roundHalfEven (q : ℚ) : ℤ :=
  if q - ⌊q⌋ < 1 / 2 then ⌊q⌋
  else if 1 / 2 < q - ⌊q⌋ then ⌊q⌋ + 1
  else if Even ⌊q⌋ then ⌊q⌋ else ⌊q⌋ + 1

/-- The rounding rule used by `seconds_to_frames` rounds to a nearest
integer: it never moves a value by more than half a unit. -/
theorem roundHalfEven_nearest (q : ℚ) : |(roundHalfEven q : ℚ) - q| ≤ 1 / 2 := by
  have h1 : (⌊q⌋ : ℚ) ≤ q := Int.floor_le q
  have h2 : q < ⌊q⌋ + 1 := Int.lt_floor_add_one q
  unfold roundHalfEven
  split_ifs <;> rw [abs_le] <;> constructor <;> push_cast <;> linarith

/-- Values appearing in the seconds-based timing table fed to
`seconds_to_frames`: a scalar number of seconds, a list of numbers
(in practice a two-element `[min, max]` range), or the literal string
marker `'inf'` (the only string the function is given). -/
inductive TimeVal where
  | num (x : ℚ)
  | timesList (xs : List ℚ)
  | infStr
deriving DecidableEq, Repr

/-- Values of the frames-based timing table produced by
`seconds_to_frames`: a frame count, a list of frame counts, or the
`np.inf` sentinel. -/
inductive FrameVal where
  | frames (n : ℤ)
  | framesList (ns : List ℤ)
  | inf
deriving DecidableEq, Repr

/-- The converter `to_frames = lambda x: int(round(x / frame_time))` from
`seconds_to_frames`. -/
def to_frames (frame_time : ℚ) (x : ℚ) : ℤ :=
  roundHalfEven (x / frame_time)

/-- Shallow embedding of `exp_utils.seconds_to_frames`: iterates over the
entries of the seconds table in order, mapping the string marker `'inf'`
to `np.inf`, a list element-wise through `to_frames`, and a scalar through
`to_frames`. -/
def seconds_to_frames (time_in_seconds : List (String × TimeVal)) (frame_time : ℚ) :
    List (String × FrameVal) :=
  match time_in_seconds with
  | [] => []
  | (key, val) :: rest =>
    let out : FrameVal :=
      match val with
      | .infStr => .inf
      | .timesList xs => .framesList (xs.map (to_frames frame_time))
      | .num x => .frames (to_frames frame_time x)
    (key, out) :: seconds_to_frames rest frame_time

/-- Entry-wise description of `seconds_to_frames`: the output at position
`i` is the input entry at position `i` with its value converted. -/
theorem seconds_to_frames_getElem? (d : List (String × TimeVal)) (ft : ℚ) (i : ℕ) :
    (seconds_to_frames d ft)[i]? = d[i]?.map (fun kv =>
      (kv.1, match kv.2 with
        | .infStr => FrameVal.inf
        | .timesList xs => .framesList (xs.map (to_frames ft))
        | .num x => .frames (to_frames ft x))) := by
  induction d generalizing i with
  | nil => simp [seconds_to_frames]
  | cons kv rest ih =>
    cases i with
    | zero => simp [seconds_to_frames]
    | succ j => simpa [seconds_to_frames] using ih j

/-- Key order and completeness of `seconds_to_frames`: the output keys are
exactly the input keys, in the same order. -/
theorem seconds_to_frames_keys (d : List (String × TimeVal)) (ft : ℚ) :
    (seconds_to_frames d ft).map Prod.fst = d.map Prod.fst := by
  induction d with
  | nil => rfl
  | cons kv rest ih => simpa [seconds_to_frames] using ih

end Chainsaw

/-- Claim C4: for every timing dictionary and frame time,
`seconds_to_frames` maps every input key to an output key in the same
order (completeness and key-order preservation); each scalar entry is
converted to the nearest whole frame count by the single rounding rule
`roundHalfEven (x / frame_time)` (round half to even, Python's `round`);
each two-element list is converted element-wise by the same rule; and the
string marker `'inf'` is converted to the sentinel `FrameVal.inf`, which
is distinct from every finite frame count. -/
theorem C4_seconds_to_frames_conversion (d : List (String × Chainsaw.TimeVal)) (ft : ℚ) :
    ((Chainsaw.seconds_to_frames d ft).map Prod.fst = d.map Prod.fst)
    ∧ (∀ (i : ℕ) (k : String) (x : ℚ), d[i]? = some (k, Chainsaw.TimeVal.num x) →
        (Chainsaw.seconds_to_frames d ft)[i]?
          = some (k, Chainsaw.FrameVal.frames (Chainsaw.roundHalfEven (x / ft))))
    ∧ (∀ q : ℚ, |(Chainsaw.roundHalfEven q : ℚ) - q| ≤ 1 / 2)
    ∧ (∀ (i : ℕ) (k : String) (a b : ℚ),
        d[i]? = some (k, Chainsaw.TimeVal.timesList [a, b]) →
        (Chainsaw.seconds_to_frames d ft)[i]?
          = some (k, Chainsaw.FrameVal.framesList [Chainsaw.roundHalfEven (a / ft),
                                  Chainsaw.roundHalfEven (b / ft)]))
    ∧ (∀ (i : ℕ) (k : String), d[i]? = some (k, Chainsaw.TimeVal.infStr) →
        (Chainsaw.seconds_to_frames d ft)[i]? = some (k, Chainsaw.FrameVal.inf))
    ∧ (∀ n : ℤ, Chainsaw.FrameVal.inf ≠ .frames n) := by
  refine ⟨Chainsaw.seconds_to_frames_keys d ft, ?_, Chainsaw.roundHalfEven_nearest, ?_, ?_, ?_⟩
  · intro i k x h
    rw [Chainsaw.seconds_to_frames_getElem?, h]
    rfl
  · intro i k a b h
    rw [Chainsaw.seconds_to_frames_getElem?, h]
    rfl
  · intro i k h
    rw [Chainsaw.seconds_to_frames_getElem?, h]
    rfl
  · intro n h
    exact Chainsaw.FrameVal.noConfusion h

/-- Witness for C4 at a concrete input: a three-entry table with a scalar,
a range and the infinite marker. -/
theorem C4_seconds_to_frames_conversion_witness :
    (Chainsaw.seconds_to_frames
        [("fix", .num (3/10)), ("mask", .timesList [1/2, 1]), ("resp", .infStr)]
        (1/100))[0]? = some ("fix", .frames 30) := by
  have h := (C4_seconds_to_frames_conversion
      [("fix", .num (3/10)), ("mask", .timesList [1/2, 1]), ("resp", .infStr)]
      (1/100)).2.1 0 "fix" (3/10) rfl
  rw [h]
  norm_num [Chainsaw.roundHalfEven]

namespace Chainsaw

/-- Core round-trip bound: converting seconds to frames and multiplying
back by the frame time moves the value by at most half a frame, hence at
most one frame. -/
theorem to_frames_roundtrip (ft x : ℚ) (hft : 0 < ft) :
    |(to_frames ft x : ℚ) * ft - x| ≤ ft := by
  have hne : ft ≠ 0 := ne_of_gt hft
  have h := roundHalfEven_nearest (x / ft)
  have key : (to_frames ft x : ℚ) * ft - x = ((roundHalfEven (x / ft) : ℚ) - x / ft) * ft := by
    field_simp [to_frames]
  rw [key, abs_mul, abs_of_pos hft]
  calc |(roundHalfEven (x / ft) : ℚ) - x / ft| * ft ≤ (1 / 2) * ft := by
        exact mul_le_mul_of_nonneg_right h (le_of_lt hft)
    _ ≤ ft := by linarith

end Chainsaw

/-- Claim C5: round-trip bound for `seconds_to_frames` — for every timing
table and positive frame time, each finite output entry multiplied back by
the frame time differs from the original seconds value by at most one
frame duration; for list (range) entries this holds element-wise, in
particular for both bounds of a two-element range. -/
theorem C5_seconds_to_frames_roundtrip (d : List (String × Chainsaw.TimeVal)) (ft : ℚ)
    (hft : 0 < ft) :
    (∀ (i : ℕ) (k : String) (x : ℚ), d[i]? = some (k, Chainsaw.TimeVal.num x) →
      ∃ n : ℤ, (Chainsaw.seconds_to_frames d ft)[i]? = some (k, Chainsaw.FrameVal.frames n)
        ∧ |(n : ℚ) * ft - x| ≤ ft)
    ∧ (∀ (i : ℕ) (k : String) (xs : List ℚ),
        d[i]? = some (k, Chainsaw.TimeVal.timesList xs) →
      ∃ ns : List ℤ, (Chainsaw.seconds_to_frames d ft)[i]?
          = some (k, Chainsaw.FrameVal.framesList ns)
        ∧ ns.length = xs.length
        ∧ ∀ j (hj : j < ns.length) (hx : j < xs.length),
            |(ns[j] : ℚ) * ft - xs[j]| ≤ ft) := by
  constructor
  · intro i k x h
    refine ⟨Chainsaw.to_frames ft x, ?_, Chainsaw.to_frames_roundtrip ft x hft⟩
    rw [Chainsaw.seconds_to_frames_getElem?, h]
    rfl
  · intro i k xs h
    refine ⟨xs.map (Chainsaw.to_frames ft), ?_, by simp, ?_⟩
    · rw [Chainsaw.seconds_to_frames_getElem?, h]
      rfl
    · intro j hj hx
      simp only [List.getElem_map]
      exact Chainsaw.to_frames_roundtrip ft xs[j] hft

/-- Witness for C5 at a concrete input: frame time 1/100 s, a 0.305 s
entry rounds to 30 frames (banker's rounding of 30.5), which multiplies
back to 0.300 s, within one frame of the original. -/
theorem C5_seconds_to_frames_roundtrip_witness :
    ∃ n : ℤ, (Chainsaw.seconds_to_frames [("fix", .num (61/200))] (1/100))[0]?
      = some ("fix", .frames n) ∧ |(n : ℚ) * (1/100) - 61/200| ≤ 1/100 := by
  exact (C5_seconds_to_frames_roundtrip [("fix", .num (61/200))] (1/100) (by norm_num)).1
    0 "fix" (61/200) rfl

namespace Chainsaw

/-! ## Trigger log (`io_utils.register_trigger`, lines 113-119, and
`Experiment.reset_beh`, lines 71-84) -/

/-- The in-memory trigger log: three parallel lists, as in the Python
dictionary `{'time': [...], 'trigger': [...], 'trial': [...]}`. -/
structure TriggerLog where
  time : List ℚ
  trigger : List ℤ
  trial : List ℤ
deriving DecidableEq, Repr

/-- The empty trigger log created by `Experiment.reset_beh` (and by
`Experiment.set_triggers`). -/
def empty_trigger_log : TriggerLog := ⟨[], [], []⟩

/-- Shallow embedding of `io_utils.register_trigger`: appends the trigger
code, the experiment-clock timestamp and the current trial identifier to
the three lists of the log (one entry each). -/
def register_trigger (log : TriggerLog) (exp_time : ℚ) (code : ℤ)
    (current_trial : ℤ) : TriggerLog :=
  { log with
    trigger := log.trigger ++ [code]
    time := log.time ++ [exp_time]
    trial := log.trial ++ [current_trial] }

/-- Folding any sequence of registrations over a starting log grows each
of the three lists by exactly one entry per registration. -/
theorem register_trigger_foldl_lengths (regs : List (ℚ × ℤ × ℤ)) (log : TriggerLog) :
    (regs.foldl (fun l r => register_trigger l r.1 r.2.1 r.2.2) log).time.length
        = log.time.length + regs.length
    ∧ (regs.foldl (fun l r => register_trigger l r.1 r.2.1 r.2.2) log).trigger.length
        = log.trigger.length + regs.length
    ∧ (regs.foldl (fun l r => register_trigger l r.1 r.2.1 r.2.2) log).trial.length
        = log.trial.length + regs.length := by
  induction regs generalizing log with
  | nil => simp
  | cons r rest ih =>
    have h := ih (register_trigger log r.1 r.2.1 r.2.2)
    have ht : (register_trigger log r.1 r.2.1 r.2.2).time.length = log.time.length + 1 := by
      simp [register_trigger]
    have hg : (register_trigger log r.1 r.2.1 r.2.2).trigger.length
        = log.trigger.length + 1 := by
      simp [register_trigger]
    have hl : (register_trigger log r.1 r.2.1 r.2.2).trial.length = log.trial.length + 1 := by
      simp [register_trigger]
    simp only [List.foldl_cons, List.length_cons]
    exact ⟨by rw [h.1, ht]; omega, by rw [h.2.1, hg]; omega, by rw [h.2.2, hl]; omega⟩

end Chainsaw

/-- Claim C8: trigger-log invariant — starting from the empty log created
by `reset_beh`, after any sequence of trigger registrations the three
parallel lists `time`, `trigger` and `trial` have equal length; each
registration appends exactly one entry to each list (so all three lengths
equal the number of registrations). -/
theorem C8_trigger_log_invariant (regs : List (ℚ × ℤ × ℤ)) :
    (regs.foldl (fun l r => Chainsaw.register_trigger l r.1 r.2.1 r.2.2)
        Chainsaw.empty_trigger_log).time.length = regs.length
    ∧ (regs.foldl (fun l r => Chainsaw.register_trigger l r.1 r.2.1 r.2.2)
        Chainsaw.empty_trigger_log).trigger.length = regs.length
    ∧ (regs.foldl (fun l r => Chainsaw.register_trigger l r.1 r.2.1 r.2.2)
        Chainsaw.empty_trigger_log).trial.length = regs.length := by
  have h := Chainsaw.register_trigger_foldl_lengths regs Chainsaw.empty_trigger_log
  simpa [Chainsaw.empty_trigger_log] using h

namespace Chainsaw

/-! ## Frame-time calibration (`exp_utils.get_frame_time`, lines 773-779;
same structure in `exp.get_frame_time`, lines 228-233)

The window's `getActualFrameRate` either returns a measured refresh rate
or `None`; the two calls the function can make are modelled as two
`Option ℚ` inputs. When both are `None` the Python code fails at
`1.0 / frame_rate` (the failure the specification's taxonomy labels
`CalibrationError`); this raise point is the `calibration_error`
constructor. The second component of the result counts how many
measurement attempts were performed. -/

/-- Result of frame-time calibration: a frame time in seconds, or the
failure that occurs when both measurement attempts yield no result. -/
inductive CalibResult where
  | ok (frame_time : ℚ)
  | calibration_error
deriving DecidableEq, Repr

/-- Shallow embedding of `get_frame_time`: use the first measurement if it
yielded a rate, otherwise try one more time; fail when both attempts
yield nothing; on success return the reciprocal of the measured rate. -/
def get_frame_time (attempt1 attempt2 : Option ℚ) : CalibResult × ℕ :=
  match attempt1 with
  | some rate => (.ok (1 / rate), 1)
  | none =>
    match attempt2 with
    | some rate => (.ok (1 / rate), 2)
    | none => (.calibration_error, 2)

end Chainsaw

/-- Claim C9: frame-time calibration performs a second measurement attempt
exactly when the first attempt yields no result; it fails (the failure the
spec labels CalibrationError) exactly when both attempts fail; and when
either attempt succeeds it returns the reciprocal of the measured refresh
rate (the first successful attempt's rate). -/
theorem C9_get_frame_time_retry (a1 a2 : Option ℚ) :
    ((Chainsaw.get_frame_time a1 a2).2 = 2 ↔ a1 = none)
    ∧ ((Chainsaw.get_frame_time a1 a2).1 = .calibration_error ↔ (a1 = none ∧ a2 = none))
    ∧ (∀ r, a1 = some r → (Chainsaw.get_frame_time a1 a2).1 = .ok (1 / r))
    ∧ (∀ r, a1 = none → a2 = some r → (Chainsaw.get_frame_time a1 a2).1 = .ok (1 / r)) := by
  cases a1 <;> cases a2 <;> simp [Chainsaw.get_frame_time]

/-- Witness for C9 at concrete inputs: both attempts failing gives the
calibration failure; a failed first attempt followed by a successful
second one gives the reciprocal of the second rate. -/
theorem C9_get_frame_time_retry_witness :
    (Chainsaw.get_frame_time none none).1 = .calibration_error
    ∧ (Chainsaw.get_frame_time none (some 60)).1 = .ok (1 / 60) := by
  exact ⟨(C9_get_frame_time_retry none none).2.1.mpr ⟨rfl, rfl⟩,
    (C9_get_frame_time_retry none (some 60)).2.2.2 60 rfl rfl⟩

namespace Chainsaw

/-! ## Response collection (`io_utils.waitKeys`, lines 196-227, and
`io_utils.get_responses`, lines 463-516)

Response-box events are queue entries with a key name, a pressed flag
(presses and releases are separate entries) and a device timestamp in
milliseconds. The response-box branch of `waitKeys` polls the device
until a press matching the key list arrives; polling is modelled by
recursion over the (eventual) event queue, `none` meaning the call is
still blocked because no matching press ever arrives. -/

/-- A response-box queue entry: key name, pressed flag (true for press,
false for release) and device time in milliseconds. -/
structure RBEvent where
  key : String
  pressed : Bool
  time : ℚ
deriving DecidableEq, Repr

/-- The key filter used throughout: `keyList is None or key in keyList`. -/
def keyOk (keyList : Option (List String)) (k : String) : Bool :=
  match keyList with
  | none => true
  | some ks => ks.contains k

/-- Return value of the response-box branch of `waitKeys`: the key name,
with the reaction time (`response['time'] / 1000`) when time-stamping was
requested. -/
inductive WaitKeysOut where
  | plain (key : String)
  | stamped (key : String) (rt : ℚ)
deriving DecidableEq, Repr

/-- Packaging of the accepted response in `waitKeys`. -/
def waitKeys_out (timeStamped : Bool) (ev : RBEvent) : WaitKeysOut :=
  if timeStamped then .stamped ev.key (ev.time / 1000) else .plain ev.key

/-- Shallow embedding of the response-box branch of `io_utils.waitKeys`:
repeatedly take the next device response, accept it only when it is a
press whose key passes the key filter, silently dropping everything else.
`none` models the call still blocking (no matching press arrives). -/
def waitKeys (queue : List RBEvent) (keyList : Option (List String))
    (timeStamped : Bool) : Option WaitKeysOut :=
  match queue with
  | [] => none
  | ev :: rest =>
    if ev.pressed && keyOk keyList ev.key then some (waitKeys_out timeStamped ev)
    else waitKeys rest keyList timeStamped

/-- A key record as built by `get_responses` (psychopy `KeyPress` fields
used by the code: name, reaction time, optional duration). -/
structure KeyInfo where
  name : String
  rt : ℚ
  duration : Option ℚ
deriving DecidableEq, Repr

/-- Lookup in an association list modelling a Python dictionary. -/
def dictLookup {α : Type} (d : List (String × α)) (k : String) : Option α :=
  (d.find? (fun p => p.1 == k)).map Prod.snd

/-- Overwrite-or-append update, modelling `d[k] = v` on a Python
dictionary. -/
def dictSet {α : Type} (d : List (String × α)) (k : String) (v : α) :
    List (String × α) :=
  if (d.find? (fun p => p.1 == k)).isSome then
    d.map (fun p => if p.1 == k then (k, v) else p)
  else d ++ [(k, v)]

/-- Key removal, modelling `d.pop(k)` on a Python dictionary. -/
def dictRemove {α : Type} (d : List (String × α)) (k : String) :
    List (String × α) :=
  d.filter (fun p => !(p.1 == k))

/-- The mutable state threaded through the `get_responses` loop:
the keys collected so far, the cross-call press-tracking table
(`rbox.pressed`), the per-call table of presses seen in this queue
(`pressed_now`), and the queue indices marked for clearing. -/
structure GRState where
  keys : List KeyInfo
  pressedTbl : List (String × KeyInfo)
  pressedNow : List (String × ℕ)
  clearIdx : List ℕ
deriving DecidableEq, Repr

/-- Shallow embedding of one iteration of the response loop of
`io_utils.get_responses` (the body of `for idx, response in
enumerate(device.response_queue)`). -/
def get_responses_step (keyList : Option (List String)) (clear : Bool)
    (st : GRState) (idx : ℕ) (response : RBEvent) : GRState :=
  if keyOk keyList response.key then
    let name := response.key
    let rt := response.time / 1000
    let st1 := if clear then { st with clearIdx := st.clearIdx ++ [idx] } else st
    if response.pressed then
      let key : KeyInfo := ⟨name, rt, none⟩
      let st2 := { st1 with pressedNow := dictSet st1.pressedNow name st1.keys.length }
      let st3 := if (dictLookup st2.pressedTbl name).isSome then st2
                 else { st2 with pressedTbl := st2.pressedTbl ++ [(name, key)] }
      { st3 with keys := st3.keys ++ [key] }
    else
      match dictLookup st1.pressedTbl name with
      | some key0 =>
        let key := { key0 with duration := some (rt - key0.rt) }
        let st2 := { st1 with pressedTbl := dictRemove st1.pressedTbl name }
        match dictLookup st2.pressedNow name with
        | some use_idx =>
          { st2 with pressedNow := dictRemove st2.pressedNow name,
                     keys := st2.keys.set use_idx key }
        | none => { st2 with keys := st2.keys ++ [key] }
      | none =>
        if clear then st1 else { st1 with clearIdx := st1.clearIdx ++ [idx] }
  else st

/-- Shallow embedding of `io_utils.get_responses`: folds the loop body
over the enumerated device queue (empty queue leaves everything
untouched) and returns the collected keys together with the updated
press-tracking table. -/
def get_responses (pressedTbl : List (String × KeyInfo)) (queue : List RBEvent)
    (keyList : Option (List String)) (clear : Bool) :
    List KeyInfo × List (String × KeyInfo) :=
  if queue.length > 0 then
    let final := queue.enum.foldl
      (fun st p => get_responses_step keyList clear st p.1 p.2)
      ⟨[], pressedTbl, [], []⟩
    (final.keys, final.pressedTbl)
  else ([], pressedTbl)

/-- The response-box branch of `waitKeys` returns precisely the first
queued press event passing the key filter. -/
theorem waitKeys_eq_find? (queue : List RBEvent) (keyList : Option (List String))
    (timeStamped : Bool) :
    waitKeys queue keyList timeStamped
      = (queue.find? (fun ev => ev.pressed && keyOk keyList ev.key)).map
          (waitKeys_out timeStamped) := by
  induction queue with
  | nil => rfl
  | cons ev rest ih =>
    by_cases h : (ev.pressed && keyOk keyList ev.key) = true
    · simp [waitKeys, List.find?, h]
    · simp [waitKeys, List.find?, h, ih]

end Chainsaw

/-- Claim C7: for every response-box event queue and allowed-key list, the
response-box branch of `waitKeys` blocks until exactly one press event
(`pressed == true`) matching the allowed keys arrives and returns that key
(with reaction time `time / 1000` when time-stamping is requested),
silently discarding non-matching and release events — equivalently, it
returns precisely the first matching press, and it is still blocked
(`none`) exactly when the queue holds no matching press at all; and in the
tracked-device path (`get_responses`), a release event whose key has no
matching prior press in the tracking table contributes no returned key and
leaves the tracking table unchanged. -/
theorem C7_waitKeys_press_only (queue : List Chainsaw.RBEvent)
    (keyList : Option (List String)) (timeStamped : Bool) :
    (Chainsaw.waitKeys queue keyList timeStamped
      = (queue.find? (fun ev => ev.pressed && Chainsaw.keyOk keyList ev.key)).map
          (Chainsaw.waitKeys_out timeStamped))
    ∧ (Chainsaw.waitKeys queue keyList timeStamped = none ↔
        ∀ ev ∈ queue, ¬(ev.pressed = true ∧ Chainsaw.keyOk keyList ev.key = true))
    ∧ (∀ (clear : Bool) (st : Chainsaw.GRState) (idx : ℕ) (ev : Chainsaw.RBEvent),
        ev.pressed = false → Chainsaw.dictLookup st.pressedTbl ev.key = none →
        (Chainsaw.get_responses_step keyList clear st idx ev).keys = st.keys
        ∧ (Chainsaw.get_responses_step keyList clear st idx ev).pressedTbl
            = st.pressedTbl) := by
  refine ⟨Chainsaw.waitKeys_eq_find? queue keyList timeStamped, ?_, ?_⟩
  · rw [Chainsaw.waitKeys_eq_find?]
    constructor
    · intro h ev hev hcontra
      have hfn : List.find? (fun ev => ev.pressed && Chainsaw.keyOk keyList ev.key) queue
          = none := by
        cases hf : List.find? (fun ev => ev.pressed && Chainsaw.keyOk keyList ev.key) queue with
        | none => rfl
        | some v => rw [hf] at h; simp at h
      have hb := List.find?_eq_none.mp hfn ev hev
      simp [hcontra.1, hcontra.2] at hb
    · intro h
      rw [List.find?_eq_none.mpr]
      · rfl
      · intro ev hev
        simp only [Bool.and_eq_true, not_and]
        intro hp
        have := h ev hev
        tauto
  · intro clear st idx ev hrel hnotbl
    unfold Chainsaw.get_responses_step
    cases hok : Chainsaw.keyOk keyList ev.key with
    | false => simp [hok]
    | true => cases clear <;> simp [hok, hrel, hnotbl]

/-- Witness for C7 at concrete inputs: a queue holding a release followed
by a press returns the press with its reaction time in seconds; and a
matching release with no prior press in an empty tracking table produces
no key. -/
theorem C7_waitKeys_press_only_witness :
    (Chainsaw.waitKeys [⟨"a", false, 80⟩, ⟨"a", true, 200⟩] none true
      = some (.stamped "a" (1/5)))
    ∧ ((Chainsaw.get_responses_step (some ["a"]) true ⟨[], [], [], []⟩ 0
        ⟨"a", false, 80⟩).keys = []) := by
  constructor
  · rw [(C7_waitKeys_press_only [⟨"a", false, 80⟩, ⟨"a", true, 200⟩] none true).1]
    norm_num [List.find?, Chainsaw.keyOk, Chainsaw.waitKeys_out]
  · have h := (C7_waitKeys_press_only [] (some ["a"]) true).2.2 true
      ⟨[], [], [], []⟩ 0 ⟨"a", false, 80⟩ rfl rfl
    exact h.1

namespace Chainsaw

/-! ## Incremental data flushing (`io_utils.save_trigger_log`, lines
423-433, and `io_utils.save_beh_data`, lines 436-441)

The on-disk CSV file is modelled as a list of lines; `pandas.to_csv` with
`mode='a'` appends, writing a header line first exactly when its `header`
argument is true (it writes the header even for an empty row slice).
`exp.beh.iloc[last:stop]` is a drop/take slice. -/

/-- A line of an appended CSV file: the header line or one data row. -/
inductive FileLine (α : Type) where
  | header
  | row (data : α)
deriving DecidableEq, Repr

/-- The data rows of a file, in order, without header lines. -/
def dataRows {α : Type} (ls : List (FileLine α)) : List α :=
  ls.filterMap (fun l => match l with | .header => none | .row d => some d)

/-- How many header lines a file holds. -/
def headerCount {α : Type} (ls : List (FileLine α)) : ℕ :=
  (ls.filter (fun l => match l with | .header => true | .row _ => false)).length

theorem dataRows_append {α : Type} (a b : List (FileLine α)) :
    dataRows (a ++ b) = dataRows a ++ dataRows b :=
  List.filterMap_append a b _

theorem dataRows_map_row {α : Type} (l : List α) :
    dataRows (l.map FileLine.row) = l := by
  induction l with
  | nil => rfl
  | cons x xs ih => simpa [dataRows] using ih

theorem headerCount_append {α : Type} (a b : List (FileLine α)) :
    headerCount (a ++ b) = headerCount a + headerCount b := by
  simp [headerCount, List.filter_append]

theorem headerCount_map_row {α : Type} (l : List α) :
    headerCount (l.map FileLine.row) = 0 := by
  induction l with
  | nil => rfl
  | cons x xs ih => simp [headerCount] at ih ⊢

/-- The state touched by `save_beh_data`: the behavioral table (one entry
per trial row), the `last_beh_save` cursor, the `current_idx` cursor
(`-1` before the first trial) and the on-disk file. -/
structure BehSaveState (α : Type) where
  beh : List α
  last_beh_save : ℕ
  current_idx : ℤ
  file : List (FileLine α)
deriving DecidableEq, Repr

/-- Shallow embedding of `io_utils.save_beh_data`: appends the slice
`beh.iloc[last_beh_save : current_idx + 1]` to the file, with a header
line exactly when `current_idx == 0`, then advances `last_beh_save` to
`current_idx + 1`. -/
def save_beh_data {α : Type} (st : BehSaveState α) : BehSaveState α :=
  let slice := (st.beh.drop st.last_beh_save).take
    ((st.current_idx + 1).toNat - st.last_beh_save)
  let headerPart : List (FileLine α) :=
    if st.current_idx = 0 then [.header] else []
  { st with
    file := st.file ++ headerPart ++ slice.map FileLine.row
    last_beh_save := (st.current_idx + 1).toNat }

/-- The state touched by `save_trigger_log`: the in-memory trigger log,
the `last_log_save` cursor and the on-disk file, whose rows are
`(time, trial, trigger)` triples (the column order used by the code). -/
structure TrigSaveState where
  log : TriggerLog
  last_log_save : ℕ
  file : List (FileLine (ℚ × ℤ × ℤ))
deriving DecidableEq, Repr

/-- Shallow embedding of `io_utils.save_trigger_log`: appends the log
entries from `last_log_save` onward as `(time, trial, trigger)` rows,
with a header line exactly when `last_log_save == 0`, then advances
`last_log_save` to the current log length. -/
def save_trigger_log (st : TrigSaveState) : TrigSaveState :=
  let fromIdx := st.last_log_save
  let rows := List.zip (st.log.time.drop fromIdx)
    (List.zip (st.log.trial.drop fromIdx) (st.log.trigger.drop fromIdx))
  let headerPart : List (FileLine (ℚ × ℤ × ℤ)) :=
    if fromIdx = 0 then [.header] else []
  { st with
    file := st.file ++ headerPart ++ rows.map FileLine.row
    last_log_save := st.log.time.length }

/-- A behavioral-log state as it stands right after the first trial was
recorded and flushed once: one row, `current_idx = 0`, cursor advanced to
1, and the file holding the header and that row. -/
def behStateAfterFirstFlush : BehSaveState ℕ :=
  save_beh_data ⟨[7], 0, 0, []⟩

end Chainsaw

/-- Counterexample to claim C6 as stated: after the first trial
(`current_idx = 0`) the behavioral log is flushed once (header plus the
row), and a second flush with no new data appends a second header line —
the file then holds two header lines, contradicting the claim that the
header is written exactly once, on the first write, when either flush is
called twice in a row with no new data. -/
theorem C6_flush_counterexample :
    Chainsaw.headerCount
        (Chainsaw.save_beh_data Chainsaw.behStateAfterFirstFlush).file = 2
    ∧ Chainsaw.dataRows
        (Chainsaw.save_beh_data Chainsaw.behStateAfterFirstFlush).file
      = Chainsaw.dataRows Chainsaw.behStateAfterFirstFlush.file := by
  constructor <;> rfl

namespace Chainsaw

theorem dataRows_headerPart {α : Type} (c : Prop) [Decidable c] :
    dataRows (if c then [FileLine.header (α := α)] else []) = [] := by
  split <;> rfl

theorem headerCount_headerPart {α : Type} (c : Prop) [Decidable c] :
    headerCount (if c then [FileLine.header (α := α)] else [])
      = if c then 1 else 0 := by
  split <;> rfl

theorem dataRows_take_drop_map_row {α : Type} (n m : ℕ) (l : List α) :
    dataRows (List.take n (List.drop m (l.map FileLine.row)))
      = List.take n (List.drop m l) := by
  have h : List.take n (List.drop m (l.map FileLine.row))
      = (List.take n (List.drop m l)).map FileLine.row := by simp
  rw [h, dataRows_map_row]

theorem headerCount_take_drop_map_row {α : Type} (n m : ℕ) (l : List α) :
    headerCount (List.take n (List.drop m (l.map FileLine.row))) = 0 := by
  have h : List.take n (List.drop m (l.map FileLine.row))
      = (List.take n (List.drop m l)).map FileLine.row := by simp
  rw [h, headerCount_map_row]

/-- A behavioral flush only appends to the file. -/
theorem save_beh_data_append {α : Type} (st : BehSaveState α) :
    ∃ tail, (save_beh_data st).file = st.file ++ tail := by
  refine ⟨(if st.current_idx = 0 then [FileLine.header] else [])
    ++ ((st.beh.drop st.last_beh_save).take
        ((st.current_idx + 1).toNat - st.last_beh_save)).map FileLine.row, ?_⟩
  simp [save_beh_data]

/-- A trigger-log flush only appends to the file. -/
theorem save_trigger_log_append (st : TrigSaveState) :
    ∃ tail, (save_trigger_log st).file = st.file ++ tail := by
  refine ⟨(if st.last_log_save = 0 then [FileLine.header] else [])
    ++ (List.zip (st.log.time.drop st.last_log_save)
        (List.zip (st.log.trial.drop st.last_log_save)
          (st.log.trigger.drop st.last_log_save))).map FileLine.row, ?_⟩
  simp [save_trigger_log]

end Chainsaw

/-- Claim C6 (amended): the flush functions are append-only on data rows —
`save_beh_data` appends exactly the behavioral rows from `last_beh_save`
through `current_idx` and advances `last_beh_save`; `save_trigger_log`
appends exactly the trigger-log entries from `last_log_save` onward and
advances `last_log_save`; both only ever append to the file (previously
flushed lines are never rewritten), and a repeated flush with no new data
appends no duplicate data rows. The header line, however, is emitted
whenever the header condition holds at flush time — `current_idx == 0`
for the behavioral log and `last_log_save == 0` for the trigger log — so
it is not written exactly once in every repeated-flush scenario (see the
counterexample). -/
theorem C6_flush_incremental (α : Type) (st : Chainsaw.BehSaveState α)
    (stT : Chainsaw.TrigSaveState) :
    (∃ tail, (Chainsaw.save_beh_data st).file = st.file ++ tail)
    ∧ Chainsaw.dataRows (Chainsaw.save_beh_data st).file
        = Chainsaw.dataRows st.file
          ++ (st.beh.drop st.last_beh_save).take
              ((st.current_idx + 1).toNat - st.last_beh_save)
    ∧ (Chainsaw.save_beh_data st).last_beh_save = (st.current_idx + 1).toNat
    ∧ (st.last_beh_save = (st.current_idx + 1).toNat →
        Chainsaw.dataRows (Chainsaw.save_beh_data st).file = Chainsaw.dataRows st.file)
    ∧ Chainsaw.headerCount (Chainsaw.save_beh_data st).file
        = Chainsaw.headerCount st.file + (if st.current_idx = 0 then 1 else 0)
    ∧ (∃ tailT, (Chainsaw.save_trigger_log stT).file = stT.file ++ tailT)
    ∧ Chainsaw.dataRows (Chainsaw.save_trigger_log stT).file
        = Chainsaw.dataRows stT.file
          ++ List.zip (stT.log.time.drop stT.last_log_save)
              (List.zip (stT.log.trial.drop stT.last_log_save)
                (stT.log.trigger.drop stT.last_log_save))
    ∧ (Chainsaw.save_trigger_log stT).last_log_save = stT.log.time.length
    ∧ (stT.last_log_save = stT.log.time.length →
        Chainsaw.dataRows (Chainsaw.save_trigger_log stT).file
          = Chainsaw.dataRows stT.file)
    ∧ Chainsaw.headerCount (Chainsaw.save_trigger_log stT).file
        = Chainsaw.headerCount stT.file + (if stT.last_log_save = 0 then 1 else 0) := by
  refine ⟨Chainsaw.save_beh_data_append st, ?_, by simp [Chainsaw.save_beh_data], ?_, ?_,
    Chainsaw.save_trigger_log_append stT, ?_, by simp [Chainsaw.save_trigger_log], ?_, ?_⟩
  · simp [Chainsaw.save_beh_data, Chainsaw.dataRows_append,
      Chainsaw.dataRows_headerPart, Chainsaw.dataRows_map_row,
      Chainsaw.dataRows_take_drop_map_row]
  · intro h
    simp [Chainsaw.save_beh_data, Chainsaw.dataRows_append,
      Chainsaw.dataRows_headerPart, Chainsaw.dataRows_map_row,
      Chainsaw.dataRows_take_drop_map_row, h]
  · simp [Chainsaw.save_beh_data, Chainsaw.headerCount_append,
      Chainsaw.headerCount_headerPart, Chainsaw.headerCount_map_row,
      Chainsaw.headerCount_take_drop_map_row]
  · simp [Chainsaw.save_trigger_log, Chainsaw.dataRows_append,
      Chainsaw.dataRows_headerPart, Chainsaw.dataRows_map_row,
      Chainsaw.dataRows_take_drop_map_row]
  · intro h
    simp [Chainsaw.save_trigger_log, Chainsaw.dataRows_append,
      Chainsaw.dataRows_headerPart, Chainsaw.dataRows_map_row,
      Chainsaw.dataRows_take_drop_map_row, h]
  · simp [Chainsaw.save_trigger_log, Chainsaw.headerCount_append,
      Chainsaw.headerCount_headerPart, Chainsaw.headerCount_map_row,
      Chainsaw.headerCount_take_drop_map_row]

/-- Witness for C6 (amended) at concrete inputs: flushing the
already-flushed one-row behavioral state again appends no data rows, and
flushing an empty trigger-log state appends no data rows. -/
theorem C6_flush_incremental_witness :
    Chainsaw.dataRows (Chainsaw.save_beh_data Chainsaw.behStateAfterFirstFlush).file
      = Chainsaw.dataRows Chainsaw.behStateAfterFirstFlush.file
    ∧ Chainsaw.dataRows (Chainsaw.save_trigger_log ⟨⟨[], [], []⟩, 0, []⟩).file
      = Chainsaw.dataRows (⟨⟨[], [], []⟩, 0, []⟩ : Chainsaw.TrigSaveState).file := by
  exact ⟨(C6_flush_incremental ℕ Chainsaw.behStateAfterFirstFlush
      ⟨⟨[], [], []⟩, 0, []⟩).2.2.2.1 rfl,
    (C6_flush_incremental ℕ Chainsaw.behStateAfterFirstFlush
      ⟨⟨[], [], []⟩, 0, []⟩).2.2.2.2.2.2.2.2.1 rfl⟩

namespace Chainsaw

/-! ## Balanced index drawing (`gentri_utils.balance_draw`, lines 92-135)

Counts are Python integers (`ℤ`). `np.random.shuffle(indices)` followed by
`indices[0]` picks one element of the argmin index list; the random draw
is modelled by a stream of naturals `rs`, the step consuming one entry and
selecting `indices[r % len(indices)]`. The boolean mask `used_img` marks
indices already selected in this call; masked entries are overwritten with
the literal sentinel `10_000` before taking the minimum, exactly as the
source does. -/

/-- One iteration of the `for add in each_appears` loop of `balance_draw`:
mask the already-used entries with 10000, find the minimum, collect the
argmin indices, pick one of them (selection index `r`), bump the selected
count by `add` and mark the index used. Returns the new counts, the new
mask and the selected index. -/
def balance_draw_step (shown : List ℤ) (used : List Bool) (add : ℤ) (r : ℕ) :
    List ℤ × List Bool × ℕ :=
  let n_shown := List.zipWith (fun c u => if u then (10000 : ℤ) else c) shown used
  let min_shown := n_shown.min?.getD 0
  let indices := (List.range n_shown.length).filter
    (fun i => n_shown.getD i 0 = min_shown)
  let sel_idx := indices.getD (r % indices.length) 0
  (shown.set sel_idx (shown.getD sel_idx 0 + add), used.set sel_idx true, sel_idx)

/-- The loop of `balance_draw`, threading the counts and the used mask,
consuming one random draw per iteration; returns the selected indices and
the final (mutated) counts list. -/
def balance_draw_loop : List ℤ → List Bool → List ℤ → List ℕ → List ℕ × List ℤ
  | shown, _, [], _ => ([], shown)
  | shown, used, add :: rest, rs =>
    let step := balance_draw_step shown used add (rs.headD 0)
    let next := balance_draw_loop step.1 step.2.1 rest rs.tail
    (step.2.2 :: next.1, next.2)

/-- Shallow embedding of `gentri_utils.balance_draw` with an explicit
`each_appears` list: starts with an all-false used mask. The first result
component is the returned `selected_idx` list, the second is the final
state of the caller-owned `shown` list (mutated in place by the source).
-/
def balance_draw (shown : List ℤ) (each_appears : List ℤ) (rs : List ℕ) :
    List ℕ × List ℤ :=
  balance_draw_loop shown (List.replicate shown.length false) each_appears rs

end Chainsaw

/-- Counterexample to claim C10 as stated: with `shown = [10000, 0]` (a
count that has reached the masking sentinel 10000) and
`each_appears = [1, 1]` (k = 2 ≤ n = 2), there is a random draw under
which `balance_draw` returns `[1, 1]` — the returned indices are not
pairwise distinct, because after index 1 is selected and masked, its mask
value 10000 ties the entry of index 0 and the argmin set contains the
already-used index 1 again. -/
theorem C10_balance_draw_counterexample :
    (Chainsaw.balance_draw [10000, 0] [1, 1] [0, 1]).1 = [1, 1]
    ∧ ¬ (Chainsaw.balance_draw [10000, 0] [1, 1] [0, 1]).1.Nodup := by
  constructor
  · rfl
  · intro h
    rw [show (Chainsaw.balance_draw [10000, 0] [1, 1] [0, 1]).1 = [1, 1] from rfl] at h
    simp at h

namespace Chainsaw

theorem getD_set_self {α : Type} (l : List α) (i : ℕ) (v d : α) (h : i < l.length) :
    (l.set i v).getD i d = v := by
  rw [List.getD_eq_getElem?_getD]
  simp [List.getElem?_set_self, h]

theorem getD_set_ne {α : Type} (l : List α) (i j : ℕ) (v d : α) (h : i ≠ j) :
    (l.set i v).getD j d = l.getD j d := by
  rw [List.getD_eq_getElem?_getD, List.getElem?_set_ne h, ← List.getD_eq_getElem?_getD]

theorem getD_mem {α : Type} (l : List α) (i : ℕ) (d : α) (h : i < l.length) :
    l.getD i d ∈ l := by
  rw [List.getD_eq_getElem?_getD, List.getElem?_eq_getElem h]
  exact List.getElem_mem h

/-- The set of indices not yet used (selected) in a `balance_draw` call. -/
def unusedIdx (used : List Bool) (n : ℕ) : Finset ℕ :=
  (Finset.range n).filter (fun j => used.getD j false = false)

/-- Entry `j` of the masked counts array `n_shown`: the sentinel 10000
when `j` is used, the current count otherwise. -/
theorem masked_getD (shown : List ℤ) (used : List Bool)
    (hlen : used.length = shown.length) (j : ℕ) (hj : j < shown.length) :
    (List.zipWith (fun c u => if u then (10000 : ℤ) else c) shown used).getD j 0
      = if used.getD j false then (10000 : ℤ) else shown.getD j 0 := by
  have hju : j < used.length := by omega
  simp only [List.getD_eq_getElem?_getD, List.getElem?_zipWith',
    List.getElem?_eq_getElem hj, List.getElem?_eq_getElem hju,
    Option.map_some', Option.some_bind, Option.getD_some]

/-- Properties of one `balance_draw` step when every unused count is below
the masking sentinel and at least one index is unused: the selected index
is in range, was unused, and carries a count minimal among the unused
entries; the counts and mask are updated only at that index. -/
theorem balance_draw_step_spec (shown : List ℤ) (used : List Bool) (add : ℤ) (r : ℕ)
    (hlen : used.length = shown.length)
    (hun : ∀ j, j < shown.length → used.getD j false = false → shown.getD j 0 < 10000)
    (hne : ∃ j, j < shown.length ∧ used.getD j false = false) :
    (balance_draw_step shown used add r).2.2 < shown.length
    ∧ used.getD (balance_draw_step shown used add r).2.2 false = false
    ∧ (∀ j, j < shown.length → used.getD j false = false →
        shown.getD (balance_draw_step shown used add r).2.2 0 ≤ shown.getD j 0)
    ∧ (balance_draw_step shown used add r).1
        = shown.set (balance_draw_step shown used add r).2.2
            (shown.getD (balance_draw_step shown used add r).2.2 0 + add)
    ∧ (balance_draw_step shown used add r).2.1
        = used.set (balance_draw_step shown used add r).2.2 true := by
  obtain ⟨j0, hj0, hj0u⟩ := hne
  set masked := List.zipWith (fun c u => if u then (10000 : ℤ) else c) shown used with hmdef
  have hml : masked.length = shown.length := by
    rw [hmdef, List.length_zipWith, hlen, min_self]
  have hmne : masked ≠ [] := by
    intro hempty
    rw [hempty] at hml
    simp at hml
    omega
  obtain ⟨m, hm⟩ : ∃ m, masked.min? = some m := by
    cases hq : masked.min? with
    | none => exact absurd (by simpa using hq) hmne
    | some m => exact ⟨m, rfl⟩
  have hmem : m ∈ masked := List.min?_mem (fun a b => min_choice a b) hm
  have hle : ∀ b ∈ masked, m ≤ b :=
    fun b hb => (List.le_min?_iff (x := m) (fun a b c => le_min_iff) hm).mp le_rfl b hb
  have hj0m : masked.getD j0 0 = shown.getD j0 0 := by
    rw [masked_getD shown used hlen j0 hj0, hj0u]
    simp
  have hmlt : m < 10000 := by
    have h1 : m ≤ masked.getD j0 0 := hle _ (getD_mem masked j0 0 (by omega))
    have h2 := hun j0 hj0 hj0u
    omega
  -- the argmin index list and the selected element
  set indices := (List.range masked.length).filter
    (fun i => masked.getD i 0 = masked.min?.getD 0) with hidef
  have hmgd : masked.min?.getD 0 = m := by rw [hm]; rfl
  have hindne : indices ≠ [] := by
    obtain ⟨i, hi, hieq⟩ := List.mem_iff_getElem.mp hmem
    have higd : masked.getD i 0 = m := by
      simp only [List.getD_eq_getElem?_getD, List.getElem?_eq_getElem hi, hieq,
        Option.getD_some]
    have : i ∈ indices := by
      rw [hidef]
      rw [List.mem_filter]
      refine ⟨List.mem_range.mpr hi, ?_⟩
      simp only [decide_eq_true_eq]
      rw [hmgd, higd]
    intro hempty
    rw [hempty] at this
    exact absurd this (List.not_mem_nil i)
  have hselmem : indices.getD (r % indices.length) 0 ∈ indices := by
    have hpos : 0 < indices.length := List.length_pos.mpr hindne
    rw [List.getD_eq_getElem?_getD,
      List.getElem?_eq_getElem (Nat.mod_lt _ hpos)]
    exact List.getElem_mem _
  set sel := indices.getD (r % indices.length) 0 with hseldef
  have hselprops : sel < masked.length ∧ masked.getD sel 0 = m := by
    have := hselmem
    rw [hidef, List.mem_filter, List.mem_range] at this
    refine ⟨this.1, ?_⟩
    have := this.2
    rw [hmgd] at this
    exact of_decide_eq_true this
  have hsel_lt : sel < shown.length := by rw [← hml]; exact hselprops.1
  have hsel_unused : used.getD sel false = false := by
    cases h : used.getD sel false with
    | false => rfl
    | true =>
      exfalso
      have h2 := hselprops.2
      rw [masked_getD shown used hlen sel hsel_lt, h] at h2
      simp at h2
      omega
  have hsel_count : shown.getD sel 0 = m := by
    have := hselprops.2
    rw [masked_getD shown used hlen sel hsel_lt, hsel_unused] at this
    simpa using this
  have hstep : balance_draw_step shown used add r
      = (shown.set sel (shown.getD sel 0 + add), used.set sel true, sel) := by
    rw [balance_draw_step]
  refine ⟨?_, ?_, ?_, ?_, ?_⟩
  · rw [hstep]; exact hsel_lt
  · rw [hstep]; exact hsel_unused
  · intro j hj hju
    rw [hstep]
    simp only
    have h1 : masked.getD j 0 = shown.getD j 0 := by
      rw [masked_getD shown used hlen j hj, hju]
      simp
    have h2 : m ≤ masked.getD j 0 := hle _ (getD_mem masked j 0 (by omega))
    rw [hsel_count]
    omega
  · rw [hstep]
  · rw [hstep]

end Chainsaw

namespace Chainsaw

/-- Invariant-carrying specification of the `balance_draw` loop: when every
unused count is below the masking sentinel and at least as many indices
are unused as there are draws left, the loop returns pairwise-distinct
in-range indices that were unused on entry, each minimal among the
still-eligible entries at its draw, and mutates the counts only at the
selected indices. -/
theorem balance_draw_loop_spec (adds : List ℤ) :
    ∀ (shown : List ℤ) (used : List Bool) (rs : List ℕ),
    used.length = shown.length →
    (∀ j, j < shown.length → used.getD j false = false → shown.getD j 0 < 10000) →
    adds.length ≤ (unusedIdx used shown.length).card →
    (balance_draw_loop shown used adds rs).1.length = adds.length
    ∧ (∀ s ∈ (balance_draw_loop shown used adds rs).1,
        s < shown.length ∧ used.getD s false = false)
    ∧ (balance_draw_loop shown used adds rs).1.Nodup
    ∧ (∀ i, i < adds.length → ∀ j, j < shown.length →
        used.getD j false = false →
        j ∉ (balance_draw_loop shown used adds rs).1.take i →
        shown.getD ((balance_draw_loop shown used adds rs).1.getD i 0) 0
          ≤ shown.getD j 0)
    ∧ (balance_draw_loop shown used adds rs).2.length = shown.length
    ∧ (∀ j, j < shown.length → j ∉ (balance_draw_loop shown used adds rs).1 →
        (balance_draw_loop shown used adds rs).2.getD j 0 = shown.getD j 0)
    ∧ (∀ i, i < adds.length →
        (balance_draw_loop shown used adds rs).2.getD
            ((balance_draw_loop shown used adds rs).1.getD i 0) 0
          = shown.getD ((balance_draw_loop shown used adds rs).1.getD i 0) 0
            + adds.getD i 0) := by
  induction adds with
  | nil =>
    intro shown used rs _ _ _
    simp [balance_draw_loop]
  | cons add rest ih =>
    intro shown used rs hlen hun hcard
    have hne : ∃ j, j < shown.length ∧ used.getD j false = false := by
      have hpos : 0 < (unusedIdx used shown.length).card := by
        have h1 := hcard
        simp only [List.length_cons] at h1
        omega
      obtain ⟨j, hj⟩ := Finset.card_pos.mp hpos
      rw [unusedIdx, Finset.mem_filter, Finset.mem_range] at hj
      exact ⟨j, hj.1, hj.2⟩
    obtain ⟨hsel_lt, hsel_unused, hsel_min, hstep1, hstep2⟩ :=
      balance_draw_step_spec shown used add (rs.headD 0) hlen hun hne
    set sel := (balance_draw_step shown used add (rs.headD 0)).2.2 with hseldef
    set shown2 := shown.set sel (shown.getD sel 0 + add) with hs2
    set used2 := used.set sel true with hu2
    have hloop : balance_draw_loop shown used (add :: rest) rs
        = (sel :: (balance_draw_loop shown2 used2 rest rs.tail).1,
           (balance_draw_loop shown2 used2 rest rs.tail).2) := by
      rw [balance_draw_loop]
      rw [hstep1, hstep2]
    have hslen : shown2.length = shown.length := by simp [hs2]
    have hulen : used2.length = used.length := by simp [hu2]
    have hlen2 : used2.length = shown2.length := by rw [hulen, hslen, hlen]
    have hget_used2 : ∀ j, j ≠ sel → used2.getD j false = used.getD j false :=
      fun j hj => getD_set_ne used sel j true false (fun he => hj he.symm)
    have hget_used2_sel : used2.getD sel false = true :=
      getD_set_self used sel true false (by omega)
    have hget_shown2 : ∀ j, j ≠ sel → shown2.getD j 0 = shown.getD j 0 :=
      fun j hj => getD_set_ne shown sel j _ 0 (fun he => hj he.symm)
    have hget_shown2_sel : shown2.getD sel 0 = shown.getD sel 0 + add :=
      getD_set_self shown sel _ 0 hsel_lt
    have hun2 : ∀ j, j < shown2.length → used2.getD j false = false →
        shown2.getD j 0 < 10000 := by
      intro j hj hju
      by_cases hjs : j = sel
      · rw [hjs, hget_used2_sel] at hju
        exact absurd hju (by simp)
      · rw [hget_shown2 j hjs]
        refine hun j (by omega) ?_
        rw [← hget_used2 j hjs]
        exact hju
    have hsel_in : sel ∈ unusedIdx used shown.length :=
      Finset.mem_filter.mpr ⟨Finset.mem_range.mpr hsel_lt, hsel_unused⟩
    have hunusedIdx2 : unusedIdx used2 shown2.length
        = (unusedIdx used shown.length).erase sel := by
      rw [hslen]
      ext j
      simp only [Finset.mem_erase, unusedIdx, Finset.mem_filter, Finset.mem_range]
      constructor
      · rintro ⟨hjr, hju⟩
        have hjs : j ≠ sel := by
          intro he
          rw [he, hget_used2_sel] at hju
          exact absurd hju (by simp)
        refine ⟨hjs, hjr, ?_⟩
        rw [← hget_used2 j hjs]
        exact hju
      · rintro ⟨hjs, hjr, hju⟩
        refine ⟨hjr, ?_⟩
        rw [hget_used2 j hjs]
        exact hju
    have hcard2 : rest.length ≤ (unusedIdx used2 shown2.length).card := by
      rw [hunusedIdx2, Finset.card_erase_of_mem hsel_in]
      have h1 := hcard
      simp only [List.length_cons] at h1
      omega
    obtain ⟨ih1, ih2, ih3, ih4, ih5, ih6, ih7⟩ := ih shown2 used2 rs.tail hlen2 hun2 hcard2
    have hsel_not_mem : sel ∉ (balance_draw_loop shown2 used2 rest rs.tail).1 := by
      intro hmem
      have h1 := (ih2 sel hmem).2
      rw [hget_used2_sel] at h1
      exact absurd h1 (by simp)
    rw [hloop]
    refine ⟨by simpa using ih1, ?_, ?_, ?_, ?_, ?_, ?_⟩
    · intro s hs
      rcases List.mem_cons.mp hs with hs | hs
      · exact hs ▸ ⟨hsel_lt, hsel_unused⟩
      · have h1 := ih2 s hs
        have hne2 : s ≠ sel := fun he => hsel_not_mem (he ▸ hs)
        refine ⟨by omega, ?_⟩
        rw [← hget_used2 s hne2]
        exact h1.2
    · exact List.nodup_cons.mpr ⟨hsel_not_mem, ih3⟩
    · intro i hi j hj hju hnotin
      cases i with
      | zero =>
        simpa using hsel_min j hj hju
      | succ i' =>
        simp only [List.length_cons] at hi
        rw [List.take_succ_cons, List.mem_cons, not_or] at hnotin
        obtain ⟨hjne, hnotin'⟩ := hnotin
        have hju2 : used2.getD j false = false := by
          rw [hget_used2 j hjne]
          exact hju
        have h4 := ih4 i' (by omega) j (by omega) hju2 hnotin'
        have hmem' : (balance_draw_loop shown2 used2 rest rs.tail).1.getD i' 0
            ∈ (balance_draw_loop shown2 used2 rest rs.tail).1 :=
          getD_mem _ i' 0 (by omega)
        have hselne : (balance_draw_loop shown2 used2 rest rs.tail).1.getD i' 0 ≠ sel :=
          fun he => hsel_not_mem (he ▸ hmem')
        rw [hget_shown2 _ hselne, hget_shown2 j hjne] at h4
        simpa using h4
    · rw [ih5, hslen]
    · intro j hj hnot
      rw [List.mem_cons, not_or] at hnot
      obtain ⟨hjne, hnot'⟩ := hnot
      rw [ih6 j (by omega) hnot', hget_shown2 j hjne]
    · intro i hi
      cases i with
      | zero =>
        simp only [List.getD_cons_zero]
        rw [ih6 sel (by omega) hsel_not_mem, hget_shown2_sel]
      | succ i' =>
        simp only [List.length_cons] at hi
        simp only [List.getD_cons_succ]
        have h7 := ih7 i' (by omega)
        have hmem' : (balance_draw_loop shown2 used2 rest rs.tail).1.getD i' 0
            ∈ (balance_draw_loop shown2 used2 rest rs.tail).1 :=
          getD_mem _ i' 0 (by omega)
        have hselne : (balance_draw_loop shown2 used2 rest rs.tail).1.getD i' 0 ≠ sel :=
          fun he => hsel_not_mem (he ▸ hmem')
        rw [hget_shown2 _ hselne] at h7
        exact h7

end Chainsaw

namespace Chainsaw

theorem getD_replicate_false (n j : ℕ) :
    (List.replicate n false).getD j false = false := by
  rw [List.getD_eq_getElem?_getD, List.getElem?_replicate]
  split <;> rfl

theorem unusedIdx_replicate (n : ℕ) :
    unusedIdx (List.replicate n false) n = Finset.range n := by
  rw [unusedIdx]
  refine Finset.filter_true_of_mem ?_
  intro j _
  exact getD_replicate_false n j

end Chainsaw

/-- Claim C10 (amended): for every counts list `shown` of n integers all
strictly below the masking sentinel 10000, every `each_appears` list of
length k with k ≤ n, and every random draw, `balance_draw` returns
exactly k pairwise-distinct indices, each in `range(n)`; each returned
index has, at the moment it is drawn, the minimum count among the indices
not yet selected in this call (whose counts still equal their original
values); and `shown` is mutated in place only at the returned indices,
the i-th selected entry increasing by `each_appears[i]` while every other
entry is unchanged. -/
theorem C10_balance_draw_balanced (shown : List ℤ) (each_appears : List ℤ)
    (rs : List ℕ) (hk : each_appears.length ≤ shown.length)
    (hbelow : ∀ c ∈ shown, c < 10000) :
    (Chainsaw.balance_draw shown each_appears rs).1.length = each_appears.length
    ∧ (Chainsaw.balance_draw shown each_appears rs).1.Nodup
    ∧ (∀ s ∈ (Chainsaw.balance_draw shown each_appears rs).1, s < shown.length)
    ∧ (∀ i, i < each_appears.length → ∀ j, j < shown.length →
        j ∉ (Chainsaw.balance_draw shown each_appears rs).1.take i →
        shown.getD ((Chainsaw.balance_draw shown each_appears rs).1.getD i 0) 0
          ≤ shown.getD j 0)
    ∧ (Chainsaw.balance_draw shown each_appears rs).2.length = shown.length
    ∧ (∀ j, j < shown.length →
        j ∉ (Chainsaw.balance_draw shown each_appears rs).1 →
        (Chainsaw.balance_draw shown each_appears rs).2.getD j 0
          = shown.getD j 0)
    ∧ (∀ i, i < each_appears.length →
        (Chainsaw.balance_draw shown each_appears rs).2.getD
            ((Chainsaw.balance_draw shown each_appears rs).1.getD i 0) 0
          = shown.getD ((Chainsaw.balance_draw shown each_appears rs).1.getD i 0) 0
            + each_appears.getD i 0) := by
  have hlen : (List.replicate shown.length false).length = shown.length :=
    List.length_replicate shown.length false
  have hun : ∀ j, j < shown.length →
      (List.replicate shown.length false).getD j false = false →
      shown.getD j 0 < 10000 := by
    intro j hj _
    exact hbelow _ (Chainsaw.getD_mem shown j 0 hj)
  have hcard : each_appears.length
      ≤ (Chainsaw.unusedIdx (List.replicate shown.length false) shown.length).card := by
    rw [Chainsaw.unusedIdx_replicate, Finset.card_range]
    exact hk
  obtain ⟨h1, h2, h3, h4, h5, h6, h7⟩ :=
    Chainsaw.balance_draw_loop_spec each_appears shown
      (List.replicate shown.length false) rs hlen hun hcard
  refine ⟨h1, h3, fun s hs => (h2 s hs).1, ?_, h5, h6, h7⟩
  intro i hi j hj hnot
  exact h4 i hi j hj (Chainsaw.getD_replicate_false shown.length j) hnot

/-- Witness for C10 (amended) at a concrete input: three counts `[2,0,1]`,
two draws of one appearance each — the draw picks the least-shown indices
1 then 2, and bumps exactly those counts. -/
theorem C10_balance_draw_balanced_witness :
    (Chainsaw.balance_draw [2, 0, 1] [1, 1] [0, 0]).1.length = 2
    ∧ (Chainsaw.balance_draw [2, 0, 1] [1, 1] [0, 0]).1.Nodup := by
  have h := C10_balance_draw_balanced [2, 0, 1] [1, 1] [0, 0]
    (by norm_num) (by intro c hc; fin_cases hc <;> norm_num)
  exact ⟨h.1, h.2.1⟩

namespace Chainsaw

/-! ## Stimulus presentation (`Experiment.show_element`, exp_utils.py
lines 567-676)

The psychopy window is modelled by a trace of display events: trigger
schedulings (`window.callOnFlip(send_trigger, ...)` issued by
`set_trigger`), draw calls, and buffer flips. The clock is an input
function (`clockAt i` is `self.clock.getTime()` read at the end of frame
`i`, `onset` the reading right after the first flip), and the per-frame
outcome of `getKeys` is an input function `resp`. The `time` argument is
the explicit frame count passed by the caller, with `np.inf` as the
`FrameCount.inf` sentinel (the claims under study always pass an explicit
duration, so the `time=None` settings-lookup path is not modelled). -/

/-- A frame-count duration: finite, or the `np.inf` sentinel. -/
inductive FrameCount where
  | fin (n : ℕ)
  | inf
deriving DecidableEq, Repr

/-- The `trigger` argument of `show_element`: `None`, an integer code, a
settings name, or `False` (suppress the trigger). -/
inductive TriggerArg where
  | none
  | int (n : ℤ)
  | name (s : String)
  | boolFalse
deriving DecidableEq, Repr

/-- The `elem` argument of `show_element`: a bare name or a list of
names (drawables are referred to by their `Experiment.stim` key). -/
inductive ElemArg where
  | single (s : String)
  | listOf (ss : List String)
deriving DecidableEq, Repr

/-- Observable display effects of `show_element`: a trigger value
scheduled for the next flip, a draw call, a buffer flip. -/
inductive DisplayEvent where
  | schedTrigger (code : ℤ)
  | draw (name : String)
  | flip
deriving DecidableEq, Repr

/-- The raise site of `show_element` for an infinite duration without
`await_response` (a `RuntimeError` in the source; the configuration
error the spec taxonomy labels `InvalidDurationError`). -/
inductive ShowElementError where
  | invalidDuration
deriving DecidableEq, Repr

/-- Outcome of the frame loop: an early response `(key, rt)`, the
no-response return `(None, nan)` when awaiting, the implicit `None`
return otherwise, or exhausted fuel (never reached for finite
durations given enough fuel). -/
inductive LoopRes where
  | keyResp (key : String) (rt : ℚ)
  | noResp
  | done
  | outOfFuel
deriving DecidableEq, Repr

/-- Output of `show_element`: events before the frame loop (the
scheduled stimulus trigger), events of the frame loop, and the result. -/
structure ShowOut where
  preEvents : List DisplayEvent
  loopEvents : List DisplayEvent
  result : Except ShowElementError LoopRes

/-- Ambient collaborators of `show_element`. -/
structure ShowCtx where
  stim : List String
  triggers : List (String × ℤ)
  frame_time : ℚ
  resp : ℕ → Option (String × ℚ)
  clockAt : ℕ → ℚ
  onset : ℚ

/-- Shallow embedding of `io_utils.set_trigger` (lines 133-139) as the
events it schedules: an integer code is scheduled directly (Python's
`False` is `Integral` and would schedule code 0); a name is resolved
through the trigger table, silently doing nothing when unmapped; `None`
is neither `Integral` nor a table key, so nothing is scheduled. -/
def set_trigger_events (triggers : List (String × ℤ)) (ev : TriggerArg) :
    List DisplayEvent :=
  match ev with
  | .int n => [.schedTrigger n]
  | .boolFalse => [.schedTrigger 0]
  | .name s =>
    match dictLookup triggers s with
    | some code => [.schedTrigger code]
    | Option.none => []
  | .none => []

/-- The loop guard `frame_idx < n_frames` (always true against
`np.inf`). -/
def frame_lt (k : ℕ) : FrameCount → Bool
  | .fin n => decide (k < n)
  | .inf => true

/-- The requested presentation time
`n_frames * frame_time - frame_time * 0.5` (infinite for `np.inf`). -/
def requested_time (ft : ℚ) : FrameCount → Option ℚ
  | .fin n => some ((n : ℚ) * ft - ft / 2)
  | .inf => Option.none

/-- The loop guard `total_time < requested_time` (always true against an
infinite requested time). -/
def time_lt (t : ℚ) : Option ℚ → Bool
  | some r => decide (t < r)
  | Option.none => true

/-- The comparison `trigger_off_time >= time` (false against `np.inf`). -/
def frame_ge (F : ℕ) : FrameCount → Bool
  | .fin n => decide (n ≤ F)
  | .inf => false

/-- Shallow embedding of the frames loop of `show_element`
(lines 634-676): clear the trigger at the configured frame, draw, flip,
poll for a response when awaiting (returning immediately on a match),
advance the frame counter and the measured total time. -/
def show_element_loop (ctx : ShowCtx) (elemList : List String)
    (needs_drawing : Bool) (n_frames : FrameCount) (await_response : Bool)
    (trigger_off_time : Option ℕ) :
    ℕ → ℕ → ℚ → List DisplayEvent → List DisplayEvent × LoopRes
  | 0, _, _, events => (events, .outOfFuel)
  | fuel + 1, frame_idx, total_time, events =>
    if frame_lt frame_idx n_frames
        && time_lt total_time (requested_time ctx.frame_time n_frames) then
      let ev1 : List DisplayEvent :=
        match trigger_off_time with
        | some toff => if frame_idx = toff then [.schedTrigger 0] else []
        | Option.none => []
      let ev2 : List DisplayEvent := if needs_drawing then elemList.map .draw else []
      let events2 := events ++ ev1 ++ ev2 ++ [.flip]
      match (if await_response then ctx.resp frame_idx else Option.none) with
      | some kr => (events2, .keyResp kr.1 kr.2)
      | Option.none =>
        show_element_loop ctx elemList needs_drawing n_frames await_response
          trigger_off_time fuel (frame_idx + 1) (ctx.clockAt frame_idx - ctx.onset)
          events2
    else
      (events, if await_response then .noResp else .done)

/-- Shallow embedding of `Experiment.show_element` with an explicit
`time` argument: resolve drawability and the trigger to schedule, raise
for an infinite duration without `await_response` before any frame is
drawn, treat a `trigger_off_time` at or past the duration as unset, then
run the frames loop. -/
def show_element (ctx : ShowCtx) (elem : ElemArg) (time : FrameCount)
    (trigger : TriggerArg) (await_response : Bool)
    (trigger_off_time : Option ℕ) (fuel : ℕ) : ShowOut :=
  let elemList := match elem with | .single s => [s] | .listOf ss => ss
  let needs_drawing := match elem with
    | .single s => ctx.stim.contains s
    | .listOf _ => true
  let trigger_is_false := trigger = TriggerArg.boolFalse
  let trigger_none_or_in_settings :=
    trigger ≠ TriggerArg.none ∨ (dictLookup ctx.triggers (elemList.headD "")).isSome
  let send_this_trigger := trigger_none_or_in_settings ∧ ¬trigger_is_false
  let preEvents := if send_this_trigger then
      set_trigger_events ctx.triggers
        (if trigger = TriggerArg.none then TriggerArg.name (elemList.headD "")
         else trigger)
    else []
  let n_frames := time
  if n_frames = FrameCount.inf ∧ ¬await_response then
    ⟨preEvents, [], .error .invalidDuration⟩
  else
    let trigger_off2 := match trigger_off_time with
      | some F => if frame_ge F time then Option.none else some F
      | Option.none => Option.none
    let out := show_element_loop ctx elemList needs_drawing n_frames
      await_response trigger_off2 fuel 0 0 []
    ⟨preEvents, out.1, .ok out.2⟩

/-- With the trigger-off frame unset, the frames loop emits only draw
calls and flips beyond the events it was started with: in particular no
trigger-clear. -/
theorem show_element_loop_no_clear (ctx : ShowCtx) (elemList : List String)
    (needs_drawing : Bool) (n_frames : FrameCount) (await_response : Bool) :
    ∀ (fuel frame_idx : ℕ) (total_time : ℚ) (events : List DisplayEvent),
    ∀ e ∈ (show_element_loop ctx elemList needs_drawing n_frames await_response
        Option.none fuel frame_idx total_time events).1,
      e ∈ events ∨ (∃ s, e = .draw s) ∨ e = .flip := by
  intro fuel
  induction fuel with
  | zero =>
    intro frame_idx total_time events e he
    exact Or.inl he
  | succ fuel ih =>
    intro frame_idx total_time events e he
    rw [show_element_loop] at he
    by_cases hg : (frame_lt frame_idx n_frames
        && time_lt total_time (requested_time ctx.frame_time n_frames)) = true
    · rw [if_pos hg] at he
      simp only at he
      have hstep : ∀ x ∈ events ++ [] ++ (if needs_drawing then elemList.map DisplayEvent.draw else []) ++ [DisplayEvent.flip],
          x ∈ events ∨ (∃ s, x = DisplayEvent.draw s) ∨ x = DisplayEvent.flip := by
        intro x hx
        simp only [List.append_nil, List.mem_append, List.mem_singleton] at hx
        rcases hx with (hx | hx) | hx
        · exact Or.inl hx
        · split at hx
          · obtain ⟨s, _, hs⟩ := List.mem_map.mp hx
            exact Or.inr (Or.inl ⟨s, hs.symm⟩)
          · exact absurd hx (List.not_mem_nil x)
        · exact Or.inr (Or.inr hx)
      cases hr : (if await_response then ctx.resp frame_idx else Option.none) with
      | some kr =>
        rw [hr] at he
        exact hstep e he
      | none =>
        rw [hr] at he
        rcases ih (frame_idx + 1) (ctx.clockAt frame_idx - ctx.onset) _ e he with
          hmem | hrest
        · exact hstep e hmem
        · exact Or.inr hrest
    · rw [if_neg hg] at he
      exact Or.inl he

end Chainsaw

namespace Chainsaw

/-- Whatever `set_trigger` does, it only schedules trigger codes: it
never draws or flips. -/
theorem set_trigger_events_sched (t : List (String × ℤ)) (a : TriggerArg) :
    ∀ e ∈ set_trigger_events t a, ∃ c, e = DisplayEvent.schedTrigger c := by
  cases a with
  | int n =>
    intro e he
    simp only [set_trigger_events, List.mem_singleton] at he
    exact ⟨n, he⟩
  | boolFalse =>
    intro e he
    simp only [set_trigger_events, List.mem_singleton] at he
    exact ⟨0, he⟩
  | name s =>
    intro e he
    simp only [set_trigger_events] at he
    cases hl : dictLookup t s with
    | some code =>
      rw [hl] at he
      simp only [List.mem_singleton] at he
      exact ⟨code, he⟩
    | none =>
      rw [hl] at he
      exact absurd he (List.not_mem_nil e)
  | none =>
    intro e he
    simp only [set_trigger_events] at he
    exact absurd he (List.not_mem_nil e)

/-- The events scheduled by `show_element` before its frame loop are only
trigger schedulings: no draw call and no flip happens before the loop. -/
theorem show_element_preEvents_sched (ctx : ShowCtx) (elem : ElemArg)
    (time : FrameCount) (trigger : TriggerArg) (await_response : Bool)
    (trigger_off_time : Option ℕ) (fuel : ℕ) :
    ∀ e ∈ (show_element ctx elem time trigger await_response trigger_off_time
        fuel).preEvents, ∃ c, e = DisplayEvent.schedTrigger c := by
  intro e he
  simp only [show_element] at he
  split at he <;>
  · simp only at he
    split at he
    · exact set_trigger_events_sched _ _ e he
    · exact absurd he (List.not_mem_nil e)

end Chainsaw

/-- Claim C2: for every call of `show_element` where the duration is the
infinite sentinel and `await_response` is false, the configuration error
(the raise the spec labels `InvalidDurationError`) is returned before any
frame is drawn — the frame loop contributes no events and the events
emitted before the raise are only trigger schedulings, never a draw call
or a window flip; when `await_response` is true the infinite duration is
accepted (no error is raised). -/
theorem C2_infinite_duration_guard (ctx : Chainsaw.ShowCtx) (elem : Chainsaw.ElemArg)
    (trigger : Chainsaw.TriggerArg) (trigger_off_time : Option ℕ) (fuel : ℕ) :
    ((Chainsaw.show_element ctx elem .inf trigger false trigger_off_time fuel).result
        = .error .invalidDuration)
    ∧ (Chainsaw.show_element ctx elem .inf trigger false trigger_off_time
        fuel).loopEvents = []
    ∧ (∀ e ∈ (Chainsaw.show_element ctx elem .inf trigger false trigger_off_time
          fuel).preEvents, ∃ c, e = Chainsaw.DisplayEvent.schedTrigger c)
    ∧ (∀ err, (Chainsaw.show_element ctx elem .inf trigger true trigger_off_time
          fuel).result ≠ Except.error err) := by
  refine ⟨by simp [Chainsaw.show_element], by simp [Chainsaw.show_element],
    Chainsaw.show_element_preEvents_sched ctx elem .inf trigger false
      trigger_off_time fuel, ?_⟩
  intro err h
  simp [Chainsaw.show_element] at h

/-- Witness for C2 at a concrete input: a bare fixation element, no
trigger, empty context. -/
theorem C2_infinite_duration_guard_witness :
    (Chainsaw.show_element
        ⟨[], [], 1/100, fun _ => Option.none, fun _ => 0, 0⟩
        (.single "fix") .inf .none false Option.none 3).result
      = .error .invalidDuration := by
  exact (C2_infinite_duration_guard
    ⟨[], [], 1/100, fun _ => Option.none, fun _ => 0, 0⟩
    (.single "fix") .none Option.none 3).1

/-- Claim C3: for every finite duration `n` and every trigger-off frame
`F` with `F >= n`, `show_element` behaves identically to the same call
with `trigger_off_time` unset — the full output (scheduled trigger,
frame-loop events, result) is equal — and in that run the frame loop
fires no trigger scheduling at all (in particular no trigger-clear
`set_trigger 0`) and no error is raised. -/
theorem C3_trigger_off_clamped (ctx : Chainsaw.ShowCtx) (elem : Chainsaw.ElemArg)
    (n : ℕ) (trigger : Chainsaw.TriggerArg) (await_response : Bool) (F : ℕ)
    (fuel : ℕ) (h : n ≤ F) :
    Chainsaw.show_element ctx elem (.fin n) trigger await_response (some F) fuel
      = Chainsaw.show_element ctx elem (.fin n) trigger await_response
          Option.none fuel
    ∧ (∀ e ∈ (Chainsaw.show_element ctx elem (.fin n) trigger await_response
          Option.none fuel).loopEvents,
        ∀ c, e ≠ Chainsaw.DisplayEvent.schedTrigger c)
    ∧ (∀ err, (Chainsaw.show_element ctx elem (.fin n) trigger await_response
          (some F) fuel).result ≠ Except.error err) := by
  have hge : Chainsaw.frame_ge F (Chainsaw.FrameCount.fin n) = true := by
    simp [Chainsaw.frame_ge, h]
  refine ⟨?_, ?_, ?_⟩
  · simp [Chainsaw.show_element, hge]
  · intro e he c
    simp only [Chainsaw.show_element] at he
    split at he
    · simp at he
    · simp only at he
      rcases Chainsaw.show_element_loop_no_clear ctx _ _ _ await_response
          fuel 0 0 [] e he with hmem | ⟨s, hs⟩ | hf
      · exact absurd hmem (List.not_mem_nil e)
      · rw [hs]
        intro hcon
        exact Chainsaw.DisplayEvent.noConfusion hcon
      · rw [hf]
        intro hcon
        exact Chainsaw.DisplayEvent.noConfusion hcon
  · intro err hcon
    simp [Chainsaw.show_element, hge] at hcon

/-- Witness for C3 at a concrete input: a two-frame fixation with the
trigger-off frame set to 5 behaves exactly like the call without a
trigger-off frame. -/
theorem C3_trigger_off_clamped_witness :
    Chainsaw.show_element
        ⟨["fix"], [("fix", 11)], 1/100, fun _ => Option.none, fun i => (i : ℚ)/100, 0⟩
        (.single "fix") (.fin 2) .none false (some 5) 3
      = Chainsaw.show_element
        ⟨["fix"], [("fix", 11)], 1/100, fun _ => Option.none, fun i => (i : ℚ)/100, 0⟩
        (.single "fix") (.fin 2) .none false Option.none 3 := by
  exact (C3_trigger_off_clamped
    ⟨["fix"], [("fix", 11)], 1/100, fun _ => Option.none, fun i => (i : ℚ)/100, 0⟩
    (.single "fix") 2 .none false 5 3 (by norm_num)).1

namespace Chainsaw

/-! ## Accuracy-based early stop (`Experiment.show_all_trials`,
exp_utils.py lines 414-481, and `_check_correctness`, lines 759-768)

The loop is modelled for a fresh run (after `reset_beh`:
`current_idx = -1`, so the run starts at row 0) with the arguments the
claim is about: `stop_at_corr`, `n_consecutive` and `min_trials` given,
no staircase, no `start_from`/`stop_after`, no post-trial callback, and
no break configuration (the break screen touches neither the behavioral
table nor the stop logic). Each trial row carries its identifier (the
`trial` column) and the correctness outcome that `show_trial` records
into the behavioral table; rows not yet presented hold `None`
(pandas `NaN`), which the query counts in the total but never as
correct, exactly as `(corr == True).sum()` does. -/

/-- One row of the trial table: the trial identifier and the
`ifcorrect` outcome its presentation will record. -/
structure TrialSpec where
  trial : ℤ
  outcome : Bool
deriving DecidableEq, Repr

/-- The behavioral table: per row, the trial identifier and the recorded
`ifcorrect` value (`none` until the row's trial has been presented). -/
abbrev BehTable := List (ℤ × Option Bool)

/-- The behavioral table right after `reset_beh`: a copy of the trial
table with no outcome recorded yet. -/
def behInit (trials : List TrialSpec) : BehTable :=
  trials.map (fun tri => (tri.trial, Option.none))

/-- Shallow embedding of `exp_utils._check_correctness`: select the
behavioral rows whose trial identifier is at most `current_trial`, count
them (`n_resp`) and count those recorded correct (`n_corr`); the
consecutive counter increments when `n_corr / n_resp` is at or above the
threshold and resets to zero otherwise. -/
def check_correctness (beh : BehTable) (current_trial : ℤ) (n_above : ℕ)
    (stop_at_corr : ℚ) : ℕ :=
  let rows := beh.filter (fun r => r.1 ≤ current_trial)
  let n_resp := rows.length
  let n_corr := (rows.filter (fun r => r.2 = some true)).length
  if stop_at_corr ≤ (n_corr : ℚ) / (n_resp : ℚ) then n_above + 1 else 0

/-- Shallow embedding of the trial loop of `show_all_trials` restricted
to the accuracy-stop machinery: present the row at `t_idx` (recording its
outcome into the behavioral table), bump the elapsed count, recompute the
consecutive counter, break when the counter has reached `n_consecutive`
and at least `min_trials` trials have elapsed, otherwise advance and stop
after the last row. Returns the number of trials presented. The fuel
argument is the number of rows left and is never exhausted when the loop
starts inside the table. -/
def show_all_trials_loop (trials : List TrialSpec) (stop_at_corr : ℚ)
    (n_consecutive min_trials : ℕ) :
    BehTable → ℕ → ℕ → ℕ → ℕ → ℕ
  | _, _, elapsed, _, 0 => elapsed
  | beh, t_idx, elapsed, n_above, fuel + 1 =>
    match trials[t_idx]? with
    | Option.none => elapsed
    | some tri =>
      let beh2 := beh.set t_idx (tri.trial, some tri.outcome)
      let elapsed2 := elapsed + 1
      let n_above2 := check_correctness beh2 tri.trial n_above stop_at_corr
      if n_consecutive ≤ n_above2 ∧ min_trials ≤ elapsed2 then elapsed2
      else if t_idx + 1 = trials.length then elapsed2
      else show_all_trials_loop trials stop_at_corr n_consecutive min_trials
        beh2 (t_idx + 1) elapsed2 n_above2 fuel

/-- A fresh `show_all_trials` run with accuracy-based stopping: starts at
row 0 with a clean behavioral table, zero elapsed trials and a zero
counter. -/
def show_all_trials_corr (trials : List TrialSpec) (stop_at_corr : ℚ)
    (n_consecutive min_trials : ℕ) : ℕ :=
  show_all_trials_loop trials stop_at_corr n_consecutive min_trials
    (behInit trials) 0 0 0 trials.length

/-- The behavioral table after the first `t` rows have been presented. -/
def behAfter (trials : List TrialSpec) (t : ℕ) : BehTable :=
  (trials.take t).map (fun tri => (tri.trial, some tri.outcome))
    ++ (trials.drop t).map (fun tri => (tri.trial, Option.none))

/-- The correctness evaluated after the `t`-th presented trial, stated
the way the claim states it: correct over total among exactly the
behavioral rows whose trial identifier is at most the current trial's
identifier. -/
def correctness_at (trials : List TrialSpec) (t : ℕ) : ℚ :=
  match trials[t - 1]? with
  | some tri =>
    let rows := (behAfter trials t).filter (fun r => r.1 ≤ tri.trial)
    ((rows.filter (fun r => r.2 = some true)).length : ℚ) / (rows.length : ℚ)
  | Option.none => 0

/-- The consecutive counter after `t` presented trials, stated the way
the claim states it: increments when the evaluated correctness is at or
above the threshold, resets to zero otherwise. -/
def corr_counter (trials : List TrialSpec) (stop_at_corr : ℚ) : ℕ → ℕ
  | 0 => 0
  | t + 1 =>
    if stop_at_corr ≤ correctness_at trials (t + 1) then
      corr_counter trials stop_at_corr t + 1
    else 0

/-- Presenting the row at position `t` updates the behavioral table from
`behAfter t` to `behAfter (t+1)`. -/
theorem behAfter_set (trials : List TrialSpec) :
    ∀ (t : ℕ) (tri : TrialSpec), trials[t]? = some tri →
    (behAfter trials t).set t (tri.trial, some tri.outcome)
      = behAfter trials (t + 1) := by
  induction trials with
  | nil =>
    intro t tri h
    simp at h
  | cons a rest ih =>
    intro t tri h
    cases t with
    | zero =>
      simp only [List.getElem?_cons_zero, Option.some_inj] at h
      subst h
      simp [behAfter]
    | succ s =>
      simp only [List.getElem?_cons_succ] at h
      have h2 := ih s tri h
      simp only [behAfter, List.take_succ_cons, List.drop_succ_cons,
        List.map_cons, List.cons_append, List.set_cons_succ] at h2 ⊢
      rw [h2]

/-- `_check_correctness` applied to the mid-run behavioral state computes
exactly the claim-side counter step. -/
theorem check_correctness_eq_counter_step (trials : List TrialSpec) (t : ℕ)
    (tri : TrialSpec) (c : ℕ) (θ : ℚ) (h : trials[t]? = some tri) :
    check_correctness (behAfter trials (t + 1)) tri.trial c θ
      = if θ ≤ correctness_at trials (t + 1) then c + 1 else 0 := by
  rw [check_correctness, correctness_at]
  simp only [Nat.add_sub_cancel, h]

end Chainsaw

namespace Chainsaw

/-- Invariant-carrying specification of the trial loop: entered at row
`t_idx` with the matching behavioral state, elapsed count and counter,
and with no stop condition satisfied so far, the loop stops strictly
later, within the table, at the first point where the counter has
reached `n_consecutive` with at least `min_trials` trials elapsed — or
at the end of the table if no such point exists. -/
theorem show_all_trials_loop_spec (trials : List TrialSpec) (θ : ℚ)
    (ncons minr : ℕ) :
    ∀ (fuel t_idx : ℕ),
    fuel = trials.length - t_idx →
    t_idx < trials.length →
    (∀ t, 0 < t → t ≤ t_idx → ¬(ncons ≤ corr_counter trials θ t ∧ minr ≤ t)) →
    t_idx < show_all_trials_loop trials θ ncons minr (behAfter trials t_idx)
        t_idx t_idx (corr_counter trials θ t_idx) fuel
    ∧ show_all_trials_loop trials θ ncons minr (behAfter trials t_idx)
        t_idx t_idx (corr_counter trials θ t_idx) fuel ≤ trials.length
    ∧ (∀ t, 0 < t →
        t < show_all_trials_loop trials θ ncons minr (behAfter trials t_idx)
          t_idx t_idx (corr_counter trials θ t_idx) fuel →
        ¬(ncons ≤ corr_counter trials θ t ∧ minr ≤ t))
    ∧ ((ncons ≤ corr_counter trials θ
          (show_all_trials_loop trials θ ncons minr (behAfter trials t_idx)
            t_idx t_idx (corr_counter trials θ t_idx) fuel)
        ∧ minr ≤ show_all_trials_loop trials θ ncons minr (behAfter trials t_idx)
            t_idx t_idx (corr_counter trials θ t_idx) fuel)
      ∨ show_all_trials_loop trials θ ncons minr (behAfter trials t_idx)
          t_idx t_idx (corr_counter trials θ t_idx) fuel = trials.length) := by
  intro fuel
  induction fuel with
  | zero =>
    intro t_idx hfuel hlt _
    omega
  | succ fuel ih =>
    intro t_idx hfuel hlt hprev
    have htri : ∃ tri, trials[t_idx]? = some tri := by
      rw [List.getElem?_eq_getElem hlt]
      exact ⟨trials[t_idx], rfl⟩
    obtain ⟨tri, htri⟩ := htri
    rw [show_all_trials_loop, htri]
    simp only
    rw [behAfter_set trials t_idx tri htri,
      check_correctness_eq_counter_step trials t_idx tri _ θ htri]
    have hstep : (if θ ≤ correctness_at trials (t_idx + 1) then
        corr_counter trials θ t_idx + 1 else 0)
        = corr_counter trials θ (t_idx + 1) := rfl
    rw [hstep]
    by_cases hstop : ncons ≤ corr_counter trials θ (t_idx + 1) ∧ minr ≤ t_idx + 1
    · rw [if_pos hstop]
      refine ⟨by omega, by omega, ?_, Or.inl hstop⟩
      intro t ht0 htlt
      exact hprev t ht0 (by omega)
    · rw [if_neg hstop]
      by_cases hend : t_idx + 1 = trials.length
      · rw [if_pos hend]
        refine ⟨by omega, by omega, ?_, Or.inr hend⟩
        intro t ht0 htlt
        exact hprev t ht0 (by omega)
      · rw [if_neg hend]
        have hlt2 : t_idx + 1 < trials.length := by omega
        have hprev2 : ∀ t, 0 < t → t ≤ t_idx + 1 →
            ¬(ncons ≤ corr_counter trials θ t ∧ minr ≤ t) := by
          intro t ht0 htle
          by_cases hte : t = t_idx + 1
          · rw [hte]
            exact hstop
          · exact hprev t ht0 (by omega)
        have h := ih (t_idx + 1) (by omega) hlt2 hprev2
        exact ⟨by omega, h.2.1, h.2.2.1, h.2.2.2⟩

end Chainsaw

/-- Claim C1: in a fresh `show_all_trials` run with accuracy-based
stopping, after each presented trial correctness is computed as
correct over total among exactly the behavioral rows whose trial
identifier is at most the current trial's (the `corr_counter`/
`correctness_at` definitions restate the claim's rule: the consecutive
counter increments when that correctness is at or above `stop_at_corr`
and resets to zero otherwise), and the loop stops exactly when the
counter has reached `n_consecutive` with at least `min_trials` trials
elapsed in this run: no earlier trial count satisfies the stop
condition, and the count at which the loop stops satisfies it unless the
trial table was exhausted first. -/
theorem C1_accuracy_early_stop (trials : List Chainsaw.TrialSpec) (θ : ℚ)
    (ncons minr : ℕ) (hne : trials ≠ []) :
    0 < Chainsaw.show_all_trials_corr trials θ ncons minr
    ∧ Chainsaw.show_all_trials_corr trials θ ncons minr ≤ trials.length
    ∧ (∀ t, 0 < t → t < Chainsaw.show_all_trials_corr trials θ ncons minr →
        ¬(ncons ≤ Chainsaw.corr_counter trials θ t ∧ minr ≤ t))
    ∧ ((ncons ≤ Chainsaw.corr_counter trials θ
          (Chainsaw.show_all_trials_corr trials θ ncons minr)
        ∧ minr ≤ Chainsaw.show_all_trials_corr trials θ ncons minr)
      ∨ Chainsaw.show_all_trials_corr trials θ ncons minr = trials.length) := by
  have hlt : 0 < trials.length := List.length_pos.mpr hne
  have hinit : Chainsaw.behInit trials = Chainsaw.behAfter trials 0 := by
    simp [Chainsaw.behInit, Chainsaw.behAfter]
  have h := Chainsaw.show_all_trials_loop_spec trials θ ncons minr
    trials.length 0 (by omega) hlt (by omega)
  rw [← hinit] at h
  have hcz : Chainsaw.corr_counter trials θ 0 = 0 := rfl
  rw [hcz] at h
  exact ⟨h.1, h.2.1, h.2.2.1, h.2.2.2⟩

/-- Witness for C1 at a concrete input: a single all-correct trial with
threshold 1/2, `n_consecutive = 1` and `min_trials = 0` presents at
least one and at most one trial. -/
theorem C1_accuracy_early_stop_witness :
    0 < Chainsaw.show_all_trials_corr [⟨1, true⟩] (1/2) 1 0
    ∧ Chainsaw.show_all_trials_corr [⟨1, true⟩] (1/2) 1 0 ≤ 1 := by
  have h := C1_accuracy_early_stop [⟨1, true⟩] (1/2) 1 0 (by simp)
  exact ⟨h.1, h.2.1⟩
